import Mathlib

/-!
Shallow embedding of the chunked transcription pipeline of `podcast-txt`
(`src/app.py`), covering the chunk splitter (`split_audio_if_needed`),
the timeline stitcher and progress reporting inside
`transcribe_audio_openai`, the SRT output formatter, the timestamp
formatter (`format_timestamp`), and the RSS / job-submission surface
(`get_episodes_from_rss`, `start_transcription`).

Python floating-point arithmetic is modelled exactly over `ℚ`
(file sizes in MB, durations and timestamps in seconds); `pydub`
millisecond positions are `ℕ`.  Python `int(x)` truncates toward zero
(`pyInt`); `x % m` on floats is the floor-based remainder (`pymod`)
and `x // m` is `⌊x / m⌋`.  Fallible effects (pydub decode/export
failure, feed parse failure) are `Option` parameters, and the single
file-system side effect the spec cares about — removal of the original
asset on the successful split path — is returned as a `Bool` flag.
-/

/-- Python `int(x)`: truncation toward zero, exact over `ℚ`. -/
def pyInt (q : ℚ) : ℤ := if q < 0 then ⌈q⌉ else ⌊q⌋

/-- Python `a % b` on floats (result sign follows `b`): `a - b * ⌊a / b⌋`. -/
def pymod (a b : ℚ) : ℚ := a - b * ⌊a / b⌋

/-- Zero-padding of Python's `f"{v:02d}"` / `f"{v:03d}"` format fields. -/
def zfill (w : ℕ) (s : String) : String :=
  if s.length ≥ w then s else String.mk (List.replicate (w - s.length) '0') ++ s

/-- One result entry of `split_audio_if_needed`: either the original,
untouched asset file, or an exported piece `audio[startMs:endMs]`. -/
inductive AudioChunk where
  | original : AudioChunk
  | piece (startMs endMs : ℕ) : AudioChunk
deriving DecidableEq, Repr

/-- `split_audio_if_needed(audio_file, max_size_mb)` from `src/app.py`
lines 84-140.  `sizeBytes` is `os.path.getsize(audio_file)`; `decoded`
is `some total_duration_ms` when `AudioSegment.from_file` succeeds and
`none` when anything in the `try` block raises (the `except` branch
returns `[audio_file]`, line 140).  `num_chunks` is
`int(file_size_mb / max_size_mb + 1)` (line 96), `chunk_duration_ms`
is integer division (line 107), and chunk `i` is
`audio[i*chunk_duration_ms : min((i+1)*chunk_duration_ms, total_duration_ms)]`
(lines 116-120).  The second component records whether
`os.remove(audio_file)` (line 132) ran. -/
def split_audio_if_needed (sizeBytes : ℕ) (maxSizeMb : ℚ) (decoded : Option ℕ) :
    List AudioChunk × Bool :=
  let fileSizeMb : ℚ := (sizeBytes : ℚ) / (1024 * 1024)
  if fileSizeMb ≤ maxSizeMb then
    ([AudioChunk.original], false)
  else
    match decoded with
    | none => ([AudioChunk.original], false)
    | some totalDurationMs =>
      let numChunks : ℕ := (pyInt (fileSizeMb / maxSizeMb + 1)).toNat
      let chunkDurationMs : ℕ := totalDurationMs / numChunks
      (((List.range numChunks).map fun i =>
          AudioChunk.piece (i * chunkDurationMs)
            (min ((i + 1) * chunkDurationMs) totalDurationMs)),
        true)

/-- A timed transcript segment: `start`/`stop` seconds (chunk-local or
global) and its text. -/
structure TSeg where
  start : ℚ
  stop : ℚ
  text : String
deriving DecidableEq, Repr

/-- The `adjusted_segment` construction of `src/app.py` lines 209-213:
shift both timestamps by the chunk's offset, keep the text. -/
def adjustSegment (offset : ℚ) (s : TSeg) : TSeg :=
  { start := s.start + offset, stop := s.stop + offset, text := s.text }

/-- The timeline stitcher of `transcribe_audio_openai` (`src/app.py`
lines 175-214): chunk `i`'s segments are shifted by
`i * (audio_duration / len(audio_chunks))` and appended to
`all_segments` in chunk order. -/
def stitchChunks (audioDuration : ℚ) (chunks : List (List TSeg)) : List TSeg :=
  (chunks.enum).flatMap fun p =>
    p.2.map (adjustSegment (p.1 * (audioDuration / (chunks.length : ℚ))))

/-- Recursive presentation of the stitcher with an explicit first chunk
index, used to reason about `stitchChunks` by induction. -/
def stitchFrom (d : ℚ) : ℕ → List (List TSeg) → List TSeg
  | _, [] => []
  | i, c :: cs => c.map (adjustSegment (i * d)) ++ stitchFrom d (i + 1) cs

/-- The values written to `transcription_status[task_id]['progress']`
over a successful run with `n` chunks: `0` at submission
(`start_transcription`, `src/app.py` line 362), `5` at `splitting`
(line 151), `10` at `transcribing` (line 169), `10 + (i/n)*60` per
chunk (line 182), then `50` at `processing` (line 230), `75`
(line 238) and `100` at `completed` (line 256). -/
def progressWrites (n : ℕ) : List ℚ :=
  [0, 5, 10] ++ ((List.range n).map fun i => 10 + ((i : ℚ) / (n : ℚ)) * 60)
    ++ [50, 75, 100]

/-- `format_timestamp(seconds)` from `src/app.py` lines 276-282 (the
same function appears in `src/podcast_transcriber.py` lines 93-99):
`hours = int(seconds // 3600)`, `minutes = int((seconds % 3600) // 60)`,
`secs = int(seconds % 60)`, `millisecs = int((seconds % 1) * 1000)`,
rendered as `f"{hours:02d}:{minutes:02d}:{secs:02d},{millisecs:03d}"`.
`int` applied to the already-integral results of `//` is the floor. -/
def format_timestamp (seconds : ℚ) : String :=
  let hours : ℤ := ⌊seconds / 3600⌋
  let minutes : ℤ := ⌊pymod seconds 3600 / 60⌋
  let secs : ℤ := pyInt (pymod seconds 60)
  let millisecs : ℤ := pyInt (pymod seconds 1 * 1000)
  zfill 2 (toString hours) ++ ":" ++ zfill 2 (toString minutes) ++ ":"
    ++ zfill 2 (toString secs) ++ "," ++ zfill 3 (toString millisecs)

/-- Rendering of a timestamp following the spec's words (§4.4): truncate
the fractional seconds to whole milliseconds — not rounding — and lay
the total out as zero-padded `HH:MM:SS,mmm`. -/
def renderTimestampSpec (seconds : ℚ) : String :=
  let t : ℕ := (⌊seconds * 1000⌋).toNat
  zfill 2 (toString (t / 3600000)) ++ ":" ++ zfill 2 (toString (t / 60000 % 60)) ++ ":"
    ++ zfill 2 (toString (t / 1000 % 60)) ++ "," ++ zfill 3 (toString (t % 1000))

/-- The SRT record loop of `transcribe_audio_openai` (`src/app.py`
lines 243-248): `for i, segment in enumerate(transcript.segments, 1)`,
each record is the index line, the timestamp line and the trimmed text
followed by a blank line. -/
def srtBody : ℕ → List TSeg → String
  | _, [] => ""
  | i, s :: rest =>
    toString i ++ "\n" ++ format_timestamp s.start ++ " --> " ++ format_timestamp s.stop
      ++ "\n" ++ s.text.trim ++ "\n\n" ++ srtBody (i + 1) rest

/-- The SRT file contents written by `transcribe_audio_openai`
(`src/app.py` lines 241-253): the record loop when segments exist,
otherwise the fixed single fallback record holding the full
transcript text. -/
def writeSrtFile (segments : List TSeg) (fullText : String) : String :=
  if segments.isEmpty then "1\n" ++ "00:00:00,000 --> 00:00:01,000\n" ++ fullText
  else srtBody 1 segments

/-- One subtitle record as the spec (§4.4) words it: the index, the
`start --> end` timestamp line, and the trimmed segment text, closed by
the blank separator line. -/
def srtRecord (idx : ℕ) (s : TSeg) : String :=
  toString idx ++ "\n" ++ format_timestamp s.start ++ " --> " ++ format_timestamp s.stop
    ++ "\n" ++ s.text.trim ++ "\n\n"

/-- An RSS `<enclosure>`: its MIME type and URL, as read by
`get_episodes_from_rss` (`src/app.py` lines 296-300). -/
structure Enclosure where
  mimeType : String
  href : String
deriving DecidableEq, Repr

/-- A parsed feed entry with the fields `get_episodes_from_rss` reads. -/
structure FeedEntry where
  title : String
  published : String
  description : String
  enclosures : List Enclosure
deriving DecidableEq, Repr

/-- The enclosure scan of `src/app.py` lines 295-300: the first
enclosure whose type starts with `audio/`, if any. -/
def findAudioUrl (e : FeedEntry) : Option String :=
  (e.enclosures.find? fun enc => enc.mimeType.startsWith "audio/").map Enclosure.href

/-- One episode dict built by `get_episodes_from_rss`
(`src/app.py` lines 302-309). -/
structure Episode where
  index : ℕ
  title : String
  published : String
  audio_url : String
  description : String
deriving DecidableEq, Repr

/-- The description truncation of `src/app.py` line 308. -/
def truncateDescription (d : String) : String :=
  if d.length > 200 then d.take 200 ++ "..." else d

/-- `get_episodes_from_rss(rss_url)` from `src/app.py` lines 284-314.
Its Python signature returns `(episodes, error)` with exactly one of
the two set; `Except` captures that.  `parsed` is `some entries` when
`feedparser.parse` succeeds and `none` when it raises (the `except`
branch, line 314).  Entries without an audio enclosure are skipped;
a feed whose entries all lack one yields `ok []`. -/
def get_episodes_from_rss (parsed : Option (List FeedEntry)) :
    Except String (List Episode) :=
  match parsed with
  | none => Except.error "Error parsing RSS feed"
  | some entries =>
    if entries.isEmpty then Except.error "No episodes found in RSS feed"
    else Except.ok ((entries.enum).filterMap fun p =>
      (findAudioUrl p.2).map fun url =>
        { index := p.1
          title := p.2.title
          published := p.2.published
          audio_url := url
          description := truncateDescription p.2.description })

/-- The task record created by `start_transcription`
(`src/app.py` lines 360-367), with the fields the claims mention. -/
structure TaskInit where
  status : String
  progress : ℚ
  episode_title : String
deriving DecidableEq, Repr

/-- The submission decision of `start_transcription` (`src/app.py`
lines 344-367): re-parse the feed, reject with HTTP 400
`'Invalid episode selection'` when parsing failed or
`episode_index >= len(episodes)` (line 351), otherwise create the
task entry with status `'starting'` and progress `0`.  On the error
path no task entry is ever created, so no pipeline state beyond
submission exists for the client to observe. -/
def start_transcription (parsed : Option (List FeedEntry)) (episode_index : ℕ) :
    Except String TaskInit :=
  match get_episodes_from_rss parsed with
  | Except.error _ => Except.error "Invalid episode selection"
  | Except.ok episodes =>
    if h : episode_index < episodes.length then
      Except.ok { status := "starting"
                  progress := 0
                  episode_title := (episodes.get ⟨episode_index, h⟩).title }
    else Except.error "Invalid episode selection"

/-! ### Helper lemmas -/

theorem toString_intCast (k : ℕ) : toString ((k : ℤ)) = toString k := rfl

theorem floor_div_as_msdiv (s : ℚ) (hs : 0 ≤ s) (k : ℕ) :
    ⌊s / (k : ℚ)⌋ = (((⌊s * 1000⌋).toNat / (1000 * k) : ℕ) : ℤ) := by
  have h4 : (0 : ℚ) ≤ s / (k : ℚ) := by positivity
  rw [← Int.toNat_of_nonneg (Int.floor_nonneg.2 h4)]
  congr 1
  rw [Int.floor_toNat, Int.floor_toNat, Nat.floor_div_nat s k]
  have h2 : ⌊s⌋₊ = ⌊s * 1000⌋₊ / 1000 := by
    have h3 : ⌊(s * 1000) / ((1000 : ℕ) : ℚ)⌋₊ = ⌊s * 1000⌋₊ / 1000 :=
      Nat.floor_div_nat (s * 1000) 1000
    rw [show (s * 1000) / ((1000 : ℕ) : ℚ) = s by push_cast ; ring] at h3
    exact h3
  rw [h2, Nat.div_div_eq_div_mul]

theorem pymod_nonneg (a b : ℚ) (hb : 0 < b) : 0 ≤ pymod a b := by
  rw [pymod, sub_nonneg]
  calc b * (⌊a / b⌋ : ℚ) ≤ b * (a / b) :=
        mul_le_mul_of_nonneg_left (Int.floor_le (a / b)) hb.le
    _ = a := by field_simp

theorem format_timestamp_eq_render (s : ℚ) (hs : 0 ≤ s) :
    format_timestamp s = renderTimestampSpec s := by
  have hh : ⌊s / (3600 : ℚ)⌋ = (((⌊s * 1000⌋).toNat / 3600000 : ℕ) : ℤ) := by
    have h := floor_div_as_msdiv s hs 3600
    simp only [Nat.cast_ofNat, Nat.reduceMul] at h
    exact h
  have hm60 : ⌊s / (60 : ℚ)⌋ = (((⌊s * 1000⌋).toNat / 60000 : ℕ) : ℤ) := by
    have h := floor_div_as_msdiv s hs 60
    simp only [Nat.cast_ofNat, Nat.reduceMul] at h
    exact h
  have hn : ⌊s⌋ = (((⌊s * 1000⌋).toNat / 1000 : ℕ) : ℤ) := by
    have h := floor_div_as_msdiv s hs 1
    simp only [Nat.cast_one, Nat.cast_ofNat, Nat.reduceMul, div_one, mul_one] at h
    exact h
  set T : ℕ := (⌊s * 1000⌋).toNat with hTdef
  have hT : (⌊s * 1000⌋ : ℤ) = (T : ℤ) :=
    (Int.toNat_of_nonneg (Int.floor_nonneg.2 (by positivity))).symm
  have hmin : ⌊pymod s 3600 / 60⌋ = (((T / 60000) % 60 : ℕ) : ℤ) := by
    have e1 : pymod s 3600 / 60 = s / 60 - ((60 * ⌊s / (3600 : ℚ)⌋ : ℤ) : ℚ) := by
      rw [pymod] ; push_cast ; ring
    rw [e1, Int.floor_sub_int, hm60, hh]
    push_cast
    omega
  have hsec : pyInt (pymod s 60) = (((T / 1000) % 60 : ℕ) : ℤ) := by
    rw [pyInt, if_neg (not_lt.2 (pymod_nonneg s 60 (by norm_num)))]
    have e1 : pymod s 60 = s - ((60 * ⌊s / (60 : ℚ)⌋ : ℤ) : ℚ) := by
      rw [pymod] ; push_cast ; ring
    rw [e1, Int.floor_sub_int, hn, hm60]
    push_cast
    omega
  have hms : pyInt (pymod s 1 * 1000) = ((T % 1000 : ℕ) : ℤ) := by
    have hnn : 0 ≤ pymod s 1 * 1000 :=
      mul_nonneg (pymod_nonneg s 1 (by norm_num)) (by norm_num)
    rw [pyInt, if_neg (not_lt.2 hnn)]
    have e1 : pymod s 1 * 1000 = s * 1000 - ((1000 * ⌊s / (1 : ℚ)⌋ : ℤ) : ℚ) := by
      rw [pymod] ; push_cast ; ring
    have hdiv1 : ⌊s / (1 : ℚ)⌋ = ⌊s⌋ := by rw [div_one]
    rw [e1, Int.floor_sub_int, hdiv1, hT, hn]
    push_cast
    omega
  rw [format_timestamp, renderTimestampSpec, hh, hmin, hsec, hms,
    toString_intCast, toString_intCast, toString_intCast, toString_intCast]

theorem format_timestamp_at_3725_4 : format_timestamp (3725.4 : ℚ) = "01:02:05,400" := by
  have h1 : (⌊(3725.4 : ℚ) / 3600⌋ : ℤ) = 1 := by norm_num
  have h2 : (⌊pymod (3725.4 : ℚ) 3600 / 60⌋ : ℤ) = 2 := by
    rw [pymod, h1] ; norm_num
  have h3 : pyInt (pymod (3725.4 : ℚ) 60) = 5 := by
    have h : (⌊(3725.4 : ℚ) / 60⌋ : ℤ) = 62 := by norm_num
    rw [pyInt, pymod, h, if_neg (by norm_num)]
    norm_num
  have h4 : pyInt (pymod (3725.4 : ℚ) 1 * 1000) = 400 := by
    have h : (⌊(3725.4 : ℚ) / 1⌋ : ℤ) = 3725 := by norm_num
    rw [pyInt, pymod, h, if_neg (by norm_num)]
    norm_num
  rw [format_timestamp, h1, h2, h3, h4]
  rfl

theorem format_timestamp_at_zero : format_timestamp 0 = "00:00:00,000" := by
  have h1 : (⌊(0 : ℚ) / 3600⌋ : ℤ) = 0 := by norm_num
  have h2 : (⌊pymod (0 : ℚ) 3600 / 60⌋ : ℤ) = 0 := by norm_num [pymod]
  have h3 : pyInt (pymod (0 : ℚ) 60) = 0 := by norm_num [pyInt, pymod]
  have h4 : pyInt (pymod (0 : ℚ) 1 * 1000) = 0 := by norm_num [pyInt, pymod]
  rw [format_timestamp, h1, h2, h3, h4]
  rfl

theorem enumFrom_flatMap_eq_stitchFrom (d : ℚ) (i : ℕ) (cs : List (List TSeg)) :
    (List.enumFrom i cs).flatMap (fun p => p.2.map (adjustSegment (p.1 * d)))
      = stitchFrom d i cs := by
  induction cs generalizing i with
  | nil => rfl
  | cons c cs ih => simp [List.enumFrom, stitchFrom, ih]

theorem stitchChunks_eq_stitchFrom (dur : ℚ) (chunks : List (List TSeg)) :
    stitchChunks dur chunks = stitchFrom (dur / (chunks.length : ℚ)) 0 chunks := by
  rw [stitchChunks, ← enumFrom_flatMap_eq_stitchFrom]
  rfl

theorem stitchFrom_start_lb (d : ℚ) (hd : 0 ≤ d) (i : ℕ) (cs : List (List TSeg))
    (hb : ∀ c ∈ cs, ∀ s ∈ c, 0 ≤ s.start) :
    ∀ t ∈ stitchFrom d i cs, (i : ℚ) * d ≤ t.start := by
  induction cs generalizing i with
  | nil => intro t ht ; simp [stitchFrom] at ht
  | cons c cs ih =>
    intro t ht
    rw [stitchFrom, List.mem_append] at ht
    rcases ht with h | h
    · obtain ⟨s, hs, rfl⟩ := List.mem_map.1 h
      have h0 : 0 ≤ s.start := hb c (by simp) s hs
      simp only [adjustSegment]
      linarith
    · have hrec := ih (i + 1) (fun c hc => hb c (by simp [hc])) t h
      push_cast at hrec
      nlinarith

theorem stitchFrom_chain (d : ℚ) (hd : 0 ≤ d) (i : ℕ) (cs : List (List TSeg))
    (hchain : ∀ c ∈ cs, List.Chain' (· ≤ ·) (c.map TSeg.start))
    (hb : ∀ c ∈ cs, ∀ s ∈ c, 0 ≤ s.start ∧ s.start ≤ d) :
    List.Chain' (· ≤ ·) ((stitchFrom d i cs).map TSeg.start) := by
  induction cs generalizing i with
  | nil => simp [stitchFrom]
  | cons c cs ih =>
    rw [stitchFrom, List.map_append, List.chain'_append]
    refine ⟨?_, ?_, ?_⟩
    · have h0 := hchain c (by simp)
      rw [List.map_map]
      rw [List.chain'_map] at h0 ⊢
      exact h0.imp fun a b h => add_le_add_right h _
    · exact ih (i + 1) (fun c hc => hchain c (by simp [hc]))
        (fun c hc => hb c (by simp [hc]))
    · intro x hx y hy
      rw [List.map_map, List.getLast?_map, Option.mem_def, Option.map_eq_some'] at hx
      obtain ⟨s, hs, rfl⟩ := hx
      have hsc : s ∈ c := List.mem_of_mem_getLast? (Option.mem_def.2 hs)
      have hsle : s.start ≤ d := (hb c (by simp) s hsc).2
      rw [List.head?_map, Option.mem_def, Option.map_eq_some'] at hy
      obtain ⟨t, ht, rfl⟩ := hy
      have htmem : t ∈ stitchFrom d (i + 1) cs := List.mem_of_mem_head? (Option.mem_def.2 ht)
      have hlb := stitchFrom_start_lb d hd (i + 1) cs
        (fun c hc s hsm => (hb c (by simp [hc]) s hsm).1) t htmem
      push_cast at hlb
      simp only [Function.comp, adjustSegment]
      nlinarith

theorem foldl_append_init (a : String) (l : List String) :
    List.foldl (· ++ ·) a l = a ++ List.foldl (· ++ ·) "" l := by
  induction l generalizing a with
  | nil => simp [String.append_empty]
  | cons b l ih =>
    simp only [List.foldl_cons, String.empty_append]
    rw [ih (a ++ b), ih b, String.append_assoc]

theorem join_cons (a : String) (l : List String) :
    String.join (a :: l) = a ++ String.join l := by
  simp only [String.join, List.foldl_cons]
  rw [foldl_append_init]
  simp

theorem srtBody_eq_join (i : ℕ) (segs : List TSeg) :
    srtBody i segs = String.join ((segs.enumFrom i).map fun p => srtRecord p.1 p.2) := by
  induction segs generalizing i with
  | nil => rfl
  | cons s rest ih =>
    rw [srtBody, List.enumFrom, List.map_cons, join_cons, ih (i + 1), srtRecord]

/-! ### Claims -/

/-- Claim C1: the claim says that for an oversized asset and any positive
total duration the chunks cover `[0, total_duration_ms)` exactly, with the
last chunk's end equal to the true total duration.  The code disagrees:
with `chunk_duration_ms = total_duration_ms // num_chunks`, the last
chunk ends at `num_chunks * (total_duration_ms // num_chunks)`, which is
strictly less than the total whenever `num_chunks` does not divide it.
At 50 MB (three chunks) and a 10 ms duration the produced chunks are
`[0,3), [3,6), [6,9)` — the final millisecond is never exported. -/
theorem C1_last_chunk_ends_short :
    split_audio_if_needed 52428800 24 (some 10)
      = ([AudioChunk.piece 0 3, AudioChunk.piece 3 6, AudioChunk.piece 6 9], true) := by
  have h1 : ¬ ((52428800 : ℕ) : ℚ) / (1024 * 1024) ≤ 24 := by norm_num
  have h2 : pyInt (((52428800 : ℕ) : ℚ) / (1024 * 1024) / 24 + 1) = 3 := by
    rw [pyInt, if_neg (by norm_num)]
    norm_num
  simp only [split_audio_if_needed, if_neg h1, h2]
  decide

/-- Claim C2 (counterexample): the claim's hypotheses — chunk-local start
times non-decreasing and non-negative — are satisfied by the two chunks
`[⟨10,11⟩]` and `[⟨0,1⟩]` with `audio_duration = 2`, yet the stitched
start times are `[10, 1]`, which is decreasing: without an upper bound
on the chunk-local starts the claimed invariant fails. -/
theorem C2_counterexample :
    List.Chain' (· ≤ ·) ([TSeg.mk 10 11 "a"].map TSeg.start)
    ∧ List.Chain' (· ≤ ·) ([TSeg.mk 0 1 "b"].map TSeg.start)
    ∧ (0 : ℚ) ≤ (TSeg.mk 10 11 "a").start
    ∧ (0 : ℚ) ≤ (TSeg.mk 0 1 "b").start
    ∧ ¬ List.Chain' (· ≤ ·)
        ((stitchChunks 2 [[TSeg.mk 10 11 "a"], [TSeg.mk 0 1 "b"]]).map TSeg.start) := by
  refine ⟨by simp, by simp, by norm_num, by norm_num, ?_⟩
  intro h
  have he : (stitchChunks 2 [[TSeg.mk 10 11 "a"], [TSeg.mk 0 1 "b"]]).map TSeg.start
      = [10, 1] := by
    simp [stitchChunks, List.enum, adjustSegment]
  rw [he] at h
  simp only [List.chain'_cons] at h
  norm_num at h

/-- Claim C2 (amended): for every chunk list and non-negative total
duration, if each chunk's local start times are non-decreasing,
non-negative, AND at most the per-chunk duration
`audio_duration / N`, then the stitched sequence — chunk `i`'s segments
offset by `i * (audio_duration / N)` and appended in chunk order — has
globally non-decreasing start times. -/
theorem C2_stitched_starts_monotone (dur : ℚ) (chunks : List (List TSeg))
    (hdur : 0 ≤ dur)
    (h : ∀ c ∈ chunks, List.Chain' (· ≤ ·) (c.map TSeg.start) ∧
      ∀ s ∈ c, 0 ≤ s.start ∧ s.start ≤ dur / (chunks.length : ℚ)) :
    List.Chain' (· ≤ ·) ((stitchChunks dur chunks).map TSeg.start) := by
  rw [stitchChunks_eq_stitchFrom]
  exact stitchFrom_chain _ (by positivity) 0 chunks
    (fun c hc => (h c hc).1) (fun c hc => (h c hc).2)

/-- Claim C2 (witness): the amended theorem applied to two well-formed
chunks of a 2-second recording. -/
theorem C2_witness :
    List.Chain' (· ≤ ·)
      ((stitchChunks 2 [[TSeg.mk 0 1 "a"], [TSeg.mk 1 2 "b"]]).map TSeg.start) := by
  apply C2_stitched_starts_monotone 2 [[TSeg.mk 0 1 "a"], [TSeg.mk 1 2 "b"]] (by norm_num)
  intro c hc
  simp only [List.mem_cons, List.not_mem_nil, or_false] at hc
  rcases hc with rfl | rfl <;> refine ⟨by simp, ?_⟩ <;> intro s hs <;>
    simp only [List.mem_singleton] at hs <;> subst hs <;> norm_num

/-- Claim C3: the claim says the progress values written over a task's
lifetime are monotonically non-decreasing.  The code violates this for
runs with at least 4 chunks: the per-chunk interpolation
`10 + (i/n)*60` reaches 55 at chunk 4 of 4, after which the
`processing` checkpoint writes 50 — a decrease.  (The old non-chunked
implementation wrote `0,10,50,75,100`; the chunk loop was added without
updating the later checkpoints.) -/
theorem C3_progress_drop_at_processing : ¬ List.Chain' (· ≤ ·) (progressWrites 4) := by
  intro h
  have he : progressWrites 4 = [0, 5, 10, 10, 25, 40, 55, 50, 75, 100] := by
    norm_num [progressWrites, List.range_succ]
  rw [he] at h
  simp only [List.chain'_cons] at h
  norm_num at h

/-- Claim C4: every segment of chunk `i` of `N` is merged with global
start `local start + i*(audio_duration/N)`, global end
`local end + i*(audio_duration/N)`, and unchanged text; in particular
for `N = 3` the three chunks' segments are offset by `0`, `d` and `2d`
with `d = audio_duration/3`. -/
theorem C4_segment_offsets (dur : ℚ) (chunks : List (List TSeg)) :
    (stitchChunks dur chunks =
      (chunks.mapIdx fun i c => c.map fun s =>
        TSeg.mk (s.start + i * (dur / (chunks.length : ℚ)))
          (s.stop + i * (dur / (chunks.length : ℚ))) s.text).flatten)
    ∧ ∀ c0 c1 c2 : List TSeg,
      stitchChunks dur [c0, c1, c2] =
        c0.map (adjustSegment 0) ++ c1.map (adjustSegment (dur / 3))
          ++ c2.map (adjustSegment (2 * (dur / 3))) := by
  constructor
  · rw [stitchChunks, List.mapIdx_eq_enum_map, List.flatMap_def]
    congr 1
  · intro c0 c1 c2
    simp [stitchChunks, List.enum]

/-- Claim C5: `format_timestamp` renders a non-negative seconds value as
zero-padded `HH:MM:SS,mmm`, truncating (not rounding) the fractional
seconds — it agrees with the spec's whole-millisecond rendering for
every non-negative input — and in particular maps `3725.4` to
`"01:02:05,400"` and `0` to `"00:00:00,000"`. -/
theorem C5_format_timestamp_contract :
    (∀ s : ℚ, 0 ≤ s → format_timestamp s = renderTimestampSpec s)
    ∧ format_timestamp (3725.4 : ℚ) = "01:02:05,400"
    ∧ format_timestamp 0 = "00:00:00,000" :=
  ⟨format_timestamp_eq_render, format_timestamp_at_3725_4, format_timestamp_at_zero⟩

/-- Claim C5 (witness): the refinement instantiated at `3725.4`. -/
theorem C5_witness : format_timestamp (3725.4 : ℚ) = renderTimestampSpec (3725.4 : ℚ) :=
  C5_format_timestamp_contract.1 (3725.4 : ℚ) (by norm_num)

/-- Claim C6: when the asset size is at most the ceiling the splitter
returns exactly the unmodified original as a single chunk (without
removing it); when the size exceeds a positive ceiling and decoding
succeeds it produces exactly `floor(size_mb / ceiling_mb) + 1` chunks
(`int(x + 1) = ⌊x⌋ + 1` for the non-negative ratio `x`). -/
theorem C6_chunk_count (sizeBytes : ℕ) (maxSizeMb : ℚ) (total : ℕ) :
    ((sizeBytes : ℚ) / (1024 * 1024) ≤ maxSizeMb →
      split_audio_if_needed sizeBytes maxSizeMb (some total) = ([AudioChunk.original], false))
    ∧ (0 < maxSizeMb → maxSizeMb < (sizeBytes : ℚ) / (1024 * 1024) →
      (split_audio_if_needed sizeBytes maxSizeMb (some total)).1.length
        = (⌊(sizeBytes : ℚ) / (1024 * 1024) / maxSizeMb⌋).toNat + 1) := by
  constructor
  · intro h
    rw [split_audio_if_needed, if_pos h]
  · intro hpos h
    rw [split_audio_if_needed, if_neg (not_le.2 h)]
    simp only [List.length_map, List.length_range]
    have hx : (0 : ℚ) ≤ (sizeBytes : ℚ) / (1024 * 1024) / maxSizeMb := by positivity
    rw [pyInt, if_neg (by linarith), Int.floor_add_one]
    have hfl : 0 ≤ ⌊(sizeBytes : ℚ) / (1024 * 1024) / maxSizeMb⌋ := Int.floor_nonneg.2 hx
    omega

/-- Claim C6 (witness): a 1 MB asset stays whole; a 50 MB asset with the
24 MB ceiling yields `⌊50/24⌋ + 1 = 3` chunks. -/
theorem C6_witness :
    split_audio_if_needed 1048576 24 (some 5) = ([AudioChunk.original], false)
    ∧ (split_audio_if_needed 52428800 24 (some 10)).1.length = 3 := by
  constructor
  · exact (C6_chunk_count 1048576 24 5).1 (by norm_num)
  · rw [(C6_chunk_count 52428800 24 10).2 (by norm_num) (by norm_num)]
    have h : (⌊((52428800 : ℕ) : ℚ) / (1024 * 1024) / 24⌋ : ℤ) = 2 := by norm_num
    rw [h]
    rfl

/-- Claim C7: when decoding or splitting fails (the `except` branch of
`split_audio_if_needed`, for every size and ceiling), the function
returns the entire original asset as a single chunk and does not remove
the original file; the embedding is a total function, mirroring that
the Python function catches every exception at this boundary. -/
theorem C7_split_failure_degrades (sizeBytes : ℕ) (maxSizeMb : ℚ) :
    split_audio_if_needed sizeBytes maxSizeMb none = ([AudioChunk.original], false) := by
  rw [split_audio_if_needed]
  split <;> rfl

/-- Claim C8: with zero segments the SRT file is exactly one record —
index 1, the fixed `00:00:00,000 --> 00:00:01,000` line, and the full
transcript text — and with segments present the file is the
concatenation of records numbered from 1 in segment order, each with
the trimmed text and a separating blank line. -/
theorem C8_srt_records :
    (∀ txt, writeSrtFile [] txt = "1\n00:00:00,000 --> 00:00:01,000\n" ++ txt)
    ∧ ∀ segs txt, segs ≠ [] →
      writeSrtFile segs txt
        = String.join ((segs.enumFrom 1).map fun p => srtRecord p.1 p.2) := by
  constructor
  · intro txt
    rfl
  · intro segs txt h
    rw [writeSrtFile, if_neg (by simpa using h), srtBody_eq_join]

/-- Claim C8 (witness): the record characterization applied to a single
segment. -/
theorem C8_witness :
    writeSrtFile [TSeg.mk 0 1 " hi "] "t"
      = String.join ((([TSeg.mk 0 1 " hi "]).enumFrom 1).map fun p => srtRecord p.1 p.2) :=
  C8_srt_records.2 [TSeg.mk 0 1 " hi "] "t" (by simp)

/-- Claim C9: when no entry of a successfully parsed feed carries an
audio enclosure, `get_episodes_from_rss` yields an empty episode list,
so job submission rejects every episode index with the
`'Invalid episode selection'` error response and never creates a task —
the client observes an error and no pipeline state beyond submission
ever exists. -/
theorem C9_no_audio_enclosure (entries : List FeedEntry) (episode_index : ℕ)
    (h : ∀ e ∈ entries, findAudioUrl e = none) :
    start_transcription (some entries) episode_index
      = Except.error "Invalid episode selection" := by
  rw [start_transcription, get_episodes_from_rss]
  cases entries with
  | nil => rfl
  | cons a l =>
    rw [if_neg (by simp)]
    have hnil : ((a :: l).enum).filterMap (fun p =>
        (findAudioUrl p.2).map fun url =>
          ({ index := p.1
             title := p.2.title
             published := p.2.published
             audio_url := url
             description := truncateDescription p.2.description } : Episode))
        = [] := by
      rw [List.filterMap_eq_nil_iff]
      intro p hp
      have hm : p.2 ∈ a :: l := by
        have hg := List.mem_enum_iff_getElem?.1 hp
        exact List.mem_iff_getElem?.2 ⟨p.1, hg⟩
      rw [h p.2 hm]
      rfl
    rw [hnil]
    rfl

/-- Claim C9 (witness): a one-entry feed whose entry has no enclosures
is rejected at submission. -/
theorem C9_witness :
    start_transcription (some [FeedEntry.mk "Ep" "today" "" []]) 0
      = Except.error "Invalid episode selection" :=
  C9_no_audio_enclosure [FeedEntry.mk "Ep" "today" "" []] 0 (by
    intro e he
    simp only [List.mem_singleton] at he
    subst he
    rfl)

/-- Claim C10: on every control path — size within the ceiling,
successful split (any positive ceiling), and the exception fallback —
`split_audio_if_needed` returns at least one chunk, so the caller's
`audio_chunks[0]` never fails. -/
theorem C10_split_always_nonempty (sizeBytes : ℕ) (maxSizeMb : ℚ) (decoded : Option ℕ)
    (hpos : 0 < maxSizeMb) :
    (split_audio_if_needed sizeBytes maxSizeMb decoded).1 ≠ [] := by
  cases decoded with
  | none =>
    rw [split_audio_if_needed]
    split <;> simp
  | some total =>
    rw [split_audio_if_needed]
    split
    · simp
    · simp only [ne_eq, List.map_eq_nil_iff, List.range_eq_nil]
      have hx : (0 : ℚ) ≤ (sizeBytes : ℚ) / (1024 * 1024) / maxSizeMb := by positivity
      rw [pyInt, if_neg (by linarith), Int.floor_add_one]
      have hfl : 0 ≤ ⌊(sizeBytes : ℚ) / (1024 * 1024) / maxSizeMb⌋ := Int.floor_nonneg.2 hx
      omega

/-- Claim C10 (witness): the non-emptiness theorem at the default 24 MB
ceiling on the failure path. -/
theorem C10_witness : (split_audio_if_needed 0 24 none).1 ≠ [] :=
  C10_split_always_nonempty 0 24 none (by norm_num)
